import Mathlib

/-!
Verification of the in-memory note repository of the personal notes manager
(`src/notes_backend/src/api/models.py`), its request handlers
(`src/notes_backend/src/api/routers/notes.py`) and the identity dependency
(`src/notes_backend/src/api/dependencies.py`).

Modelling notes.

The Python repository stores mutable `Note` dataclass instances in a dict
`self._notes : Dict[int, Note]`, and its operations return the stored objects
themselves (references), not copies.  To reason about this aliasing we embed
Python's reference semantics explicitly: a `RepoState` carries

* `heap`    : an association list from object addresses to `Note` values —
              the set of `Note` objects ever allocated (objects survive even
              after their dict entry is deleted, since a caller may still hold
              a reference to them);
* `notes`   : the contents of `self._notes`, an insertion-ordered association
              list from note id to the address of the stored object (Python
              dicts preserve insertion order; overwriting a key keeps its
              position);
* `next_id`   : the field `self._next_id`;
* `next_addr` : the allocator's next fresh address (a modelling device for
                Python object allocation; not a field of the source class).

Operations that return a `Note` object in Python return its address here, and
`heapGet s.heap a` dereferences it.  A caller-side field assignment such as
`note.title = t` on a returned reference is modelled by `setTitleAt`.

Timestamps: `time.time()` returns wall-clock readings; each call site receives
its reading as an explicit `now : Nat` argument, so clock behaviour (monotone
or not) is a hypothesis where a claim needs it, never an assumption baked into
the model.  The single lock makes every operation atomic, so the sequential
semantics here is the concurrency-faithful one.
-/

/-- The `Note` dataclass of `models.py`: id, title, content, owner_id and the
two timestamps. -/
structure Note where
  id : Nat
  title : String
  content : String
  owner_id : String
  created_at : Nat
  updated_at : Nat
deriving DecidableEq, Repr

/-- Association-list lookup, modelling `dict.get` / attribute dereference:
the value stored at the first (hence only, for dict-shaped lists) matching
key. -/
def assocGet {α : Type} (l : List (Nat × α)) (k : Nat) : Option α :=
  (l.find? (fun p => p.1 == k)).map Prod.snd

/-- Association-list store, modelling `d[k] = v` on a Python dict (replace in
place when the key exists, append otherwise) and, on the heap, both fresh
allocation and in-place object mutation. -/
def assocSet {α : Type} (l : List (Nat × α)) (k : Nat) (v : α) : List (Nat × α) :=
  if l.any (fun p => p.1 == k) then
    l.map (fun p => if p.1 == k then (k, v) else p)
  else
    l ++ [(k, v)]

/-- Association-list removal, modelling the removal performed by
`dict.pop(k, None)` when the key is present. -/
def assocRemove {α : Type} (l : List (Nat × α)) (k : Nat) : List (Nat × α) :=
  l.filter (fun p => p.1 != k)

/-- The state of one `InMemoryNoteRepository` instance together with the heap
of `Note` objects it has allocated. -/
structure RepoState where
  heap : List (Nat × Note)
  notes : List (Nat × Nat)
  next_id : Nat
  next_addr : Nat
deriving DecidableEq, Repr

/-- Dereference an object address, as a caller reading fields of a returned
`Note` does. -/
def deref (s : RepoState) (a : Nat) : Option Note :=
  assocGet s.heap a

/-- Models `InMemoryNoteRepository.__init__`: empty dict, `_next_id = 1`. -/
def emptyRepo : RepoState :=
  { heap := [], notes := [], next_id := 1, next_addr := 0 }

namespace InMemoryNoteRepository

/-- Models `_generate_id`: return `self._next_id` and increment it. -/
def _generate_id (s : RepoState) : Nat × RepoState :=
  (s.next_id, { s with next_id := s.next_id + 1 })

/-- Models `create(title, content, owner_id)`: allocate the next id, build a fresh
`Note` with `created_at = updated_at = now`, store it under its id and return
it.  The returned value is the address of the stored object — Python returns
the very object it just put in the dict. -/
def create (s : RepoState) (title content owner_id : String) (now : Nat) :
    Nat × RepoState :=
  let (nid, s₁) := _generate_id s
  let note : Note :=
    { id := nid, title := title, content := content, owner_id := owner_id,
      created_at := now, updated_at := now }
  let a := s₁.next_addr
  (a, { s₁ with
          heap := assocSet s₁.heap a note,
          notes := assocSet s₁.notes nid a,
          next_addr := a + 1 })

/-- Models `list_all(owner_id=None)`: `list(self._notes.values())`, optionally
filtered by `n.owner_id == owner_id`, returned as a fresh list.  The result is
a new list container whose elements are the stored object references. -/
def list_all (s : RepoState) (owner_id : Option String) : List Nat :=
  let items := s.notes.map Prod.snd
  match owner_id with
  | none => items
  | some o =>
      items.filter (fun a =>
        match deref s a with
        | some n => n.owner_id == o
        | none => false)

/-- Models `get(note_id)`: `self._notes.get(note_id)` — the stored object reference,
or absence. -/
def get (s : RepoState) (note_id : Nat) : Option Nat :=
  assocGet s.notes note_id

/-- Models `update(note_id, *, title=None, content=None)`: look the object up; on
absence return `None` with the state untouched; otherwise assign the supplied
fields and refresh `updated_at` in place, returning the same object.  The
inner `none` branch is unreachable from reachable states (every address in
`notes` points into `heap`); it is an artefact of splitting the Python object
graph into `notes` and `heap`. -/
def update (s : RepoState) (note_id : Nat)
    (title content : Option String) (now : Nat) :
    Option Nat × RepoState :=
  match get s note_id with
  | none => (none, s)
  | some a =>
      match deref s a with
      | none => (none, s)
      | some n =>
          let n₁ := match title with
            | some t => { n with title := t }
            | none => n
          let n₂ := match content with
            | some c => { n₁ with content := c }
            | none => n₁
          let n₃ := { n₂ with updated_at := now }
          (some a, { s with heap := assocSet s.heap a n₃ })

/-- Models `delete(note_id)`: `self._notes.pop(note_id, None) is not None` — remove
the dict entry if present and report whether a removal occurred.  The object
itself survives on the heap (callers may still reference it). -/
def delete (s : RepoState) (note_id : Nat) : Bool × RepoState :=
  match get s note_id with
  | none => (false, s)
  | some _ => (true, { s with notes := assocRemove s.notes note_id })

end InMemoryNoteRepository

/-- A caller executing `note.title = t` on a `Note` reference it holds:
in-place mutation of the object at address `a`. -/
def setTitleAt (s : RepoState) (a : Nat) (t : String) : RepoState :=
  { s with
      heap := s.heap.map (fun p => if p.1 == a then (p.1, { p.2 with title := t }) else p) }

/-- Models `get_current_user` of `dependencies.py`: `x_user_id or "anonymous"` —
Python's `or` falls through to the default when the header is missing (`None`)
or an empty (falsy) string. -/
def get_current_user (x_user_id : Option String) : String :=
  match x_user_id with
  | none => "anonymous"
  | some v => if v = "" then "anonymous" else v

/-- Models `require_auth` of `dependencies.py`: passes the resolved user id through
unchanged. -/
def require_auth (user_id : String) : String :=
  user_id

/-- The `NoteOut` response schema of `schemas.py`. -/
structure NoteOut where
  id : Nat
  title : String
  content : String
  owner_id : String
  created_at : Nat
  updated_at : Nat
deriving DecidableEq, Repr

/-- Models `_to_note_out` of `routers/notes.py`: field-by-field copy of a `Note`
value into a `NoteOut`. -/
def _to_note_out (n : Note) : NoteOut :=
  { id := n.id, title := n.title, content := n.content, owner_id := n.owner_id,
    created_at := n.created_at, updated_at := n.updated_at }

/-- Outcome of the update handler: 200 with a body, 404, or 400. -/
inductive HandlerResult where
  | ok (body : NoteOut)
  | notFound
  | badRequest
deriving DecidableEq, Repr

/-- Models `update_note` of `routers/notes.py`: reject a payload supplying neither
title nor content with 400 before calling the repository; otherwise call
`repository.update`, translating absence to 404 and success to a `NoteOut`
built from the returned object.  As in `update`, the inner `none` branch of
the dereference is unreachable. -/
def update_note (s : RepoState) (note_id : Nat)
    (title content : Option String) (now : Nat) :
    HandlerResult × RepoState :=
  if title = none ∧ content = none then
    (.badRequest, s)
  else
    match InMemoryNoteRepository.update s note_id title content now with
    | (none, s') => (.notFound, s')
    | (some a, s') =>
        match deref s' a with
        | some n => (.ok (_to_note_out n), s')
        | none => (.notFound, s')

/-- One repository call, for reasoning about call sequences on a single
repository instance.  Mutating calls carry the `time.time()` reading their
execution observes. -/
inductive Op where
  | create (title content owner_id : String) (now : Nat)
  | update (note_id : Nat) (title content : Option String) (now : Nat)
  | delete (note_id : Nat)
  | get (note_id : Nat)
  | list (owner_id : Option String)
deriving DecidableEq, Repr

/-- State effect of one repository call (`get` and `list_all` read only). -/
def Op.step (s : RepoState) : Op → RepoState
  | .create t c o now => (InMemoryNoteRepository.create s t c o now).2
  | .update i t c now => (InMemoryNoteRepository.update s i t c now).2
  | .delete i => (InMemoryNoteRepository.delete s i).2
  | .get _ => s
  | .list _ => s

/-- Run a sequence of repository calls from a state. -/
def run (s : RepoState) : List Op → RepoState
  | [] => s
  | op :: ops => run (Op.step s op) ops

/-- The identifiers a caller reads off the records returned by the `create`
calls of a sequence, in call order: for each `create`, the `id` field of the
returned object. -/
def createdIds (s : RepoState) : List Op → List Nat
  | [] => []
  | .create t c o now :: ops =>
      let r := InMemoryNoteRepository.create s t c o now
      (match deref r.2 r.1 with
       | some n => n.id
       | none => 0) :: createdIds r.2 ops
  | op :: ops => createdIds (Op.step s op) ops

/-- The clock reading consumed by a call, if it takes one. -/
def Op.clock : Op → Option Nat
  | .create _ _ _ now => some now
  | .update _ _ _ now => some now
  | _ => none

/-- Holds when the clock readings consumed along the call sequence are
non-decreasing and all at least `c` (a well-behaved wall clock). -/
def clockMono (c : Nat) : List Op → Bool
  | [] => true
  | op :: ops =>
      match Op.clock op with
      | none => clockMono c ops
      | some t => decide (c ≤ t) && clockMono t ops

/-- Every allocated note has `created_at ≤ updated_at`, with `updated_at`
bounded by `c` — the inductive invariant behind claim C6. -/
def HeapLE (s : RepoState) (c : Nat) : Prop :=
  ∀ p ∈ s.heap, p.2.created_at ≤ p.2.updated_at ∧ p.2.updated_at ≤ c

/-- Sample state: one note created by "alice". -/
def sAlice : RepoState :=
  (InMemoryNoteRepository.create emptyRepo "Shopping" "Milk" "alice" 5).2

/-- Sample state: the note of `sAlice` deleted again (its id 1 was issued and
is now absent). -/
def sDeleted : RepoState :=
  (InMemoryNoteRepository.delete sAlice 1).2

example :
    (InMemoryNoteRepository.create emptyRepo "Shopping" "Milk" "alice" 5).1 = 0 := by
  decide

example :
    InMemoryNoteRepository.get
      (InMemoryNoteRepository.create emptyRepo "Shopping" "Milk" "alice" 5).2 1 = some 0 := by
  decide

example :
    (deref (InMemoryNoteRepository.create emptyRepo "Shopping" "Milk" "alice" 5).2 0).map
      Note.title = some "Shopping" := by
  decide

example : get_current_user (some "") = "anonymous" := by decide

theorem assocGet_cons {α : Type} (p : Nat × α) (l : List (Nat × α)) (k : Nat) :
    assocGet (p :: l) k = if p.1 == k then some p.2 else assocGet l k := by
  by_cases h : (p.1 == k) = true
  · simp [assocGet, List.find?_cons_of_pos, h]
  · simp only [assocGet, List.find?_cons_of_neg _ h]
    simp [h]

theorem assocGet_mapAt {α : Type} (l : List (Nat × α)) (k : Nat) (f : α → α) :
    assocGet (l.map (fun p => if p.1 == k then (k, f p.2) else p)) k
      = (assocGet l k).map f := by
  induction l with
  | nil => rfl
  | cons p l ih =>
    simp only [beq_iff_eq] at ih
    by_cases h : p.1 = k
    · simp [assocGet_cons, h, ih]
    · simp [assocGet_cons, h, ih]

theorem assocGet_mapAt_ne {α : Type} (l : List (Nat × α)) (k k' : Nat) (f : α → α)
    (h : k' ≠ k) :
    assocGet (l.map (fun p => if p.1 == k then (k, f p.2) else p)) k'
      = assocGet l k' := by
  induction l with
  | nil => rfl
  | cons p l ih =>
    simp only [beq_iff_eq] at ih
    by_cases hp : p.1 = k
    · simp [assocGet_cons, hp, Ne.symm h, ih]
    · simp [assocGet_cons, hp, ih]

theorem assocGet_append_single {α : Type} (l : List (Nat × α)) (k : Nat) (v : α) :
    assocGet (l ++ [(k, v)]) k = ((assocGet l k).getD v : α) := by
  induction l with
  | nil => simp [assocGet_cons, assocGet]
  | cons p l ih =>
    by_cases h : p.1 = k
    · simp [assocGet_cons, h]
    · simp [assocGet_cons, h, ih]

theorem assocGet_append_single_ne {α : Type} (l : List (Nat × α)) (k k' : Nat) (v : α)
    (h : k' ≠ k) :
    assocGet (l ++ [(k, v)]) k' = assocGet l k' := by
  induction l with
  | nil => simp [assocGet_cons, assocGet, Ne.symm h]
  | cons p l ih =>
    by_cases hp : p.1 = k'
    · simp [assocGet_cons, hp]
    · simp [assocGet_cons, hp, ih]

theorem assocGet_isSome_of_any {α : Type} (l : List (Nat × α)) (k : Nat)
    (h : l.any (fun p => p.1 == k) = true) : (assocGet l k).isSome := by
  induction l with
  | nil => simp at h
  | cons p l ih =>
    by_cases hp : p.1 = k
    · simp [assocGet_cons, hp]
    · simp only [List.any_cons, Bool.or_eq_true] at h
      rcases h with h | h
      · simp [hp] at h
      · simp [assocGet_cons, hp, ih h]

theorem assocGet_eq_none_of_not_any {α : Type} (l : List (Nat × α)) (k : Nat)
    (h : ¬ l.any (fun p => p.1 == k) = true) : assocGet l k = none := by
  induction l with
  | nil => rfl
  | cons p l ih =>
    simp only [List.any_cons, Bool.or_eq_true, not_or] at h
    have hp : ¬ p.1 = k := by
      intro hk
      exact h.1 (by simp [hk])
    simp [assocGet_cons, hp, ih h.2]

theorem assocGet_assocSet_self {α : Type} (l : List (Nat × α)) (k : Nat) (v : α) :
    assocGet (assocSet l k v) k = some v := by
  unfold assocSet
  by_cases h : l.any (fun p => p.1 == k) = true
  · rw [if_pos h]
    rw [assocGet_mapAt l k (fun _ => v)]
    rcases Option.isSome_iff_exists.mp (assocGet_isSome_of_any l k h) with ⟨w, hw⟩
    simp [hw]
  · rw [if_neg h, assocGet_append_single, assocGet_eq_none_of_not_any l k h]
    rfl

theorem assocGet_assocSet_ne {α : Type} (l : List (Nat × α)) (k k' : Nat) (v : α)
    (h : k' ≠ k) :
    assocGet (assocSet l k v) k' = assocGet l k' := by
  unfold assocSet
  by_cases hany : l.any (fun p => p.1 == k) = true
  · rw [if_pos hany]
    exact assocGet_mapAt_ne l k k' (fun _ => v) h
  · rw [if_neg hany]
    exact assocGet_append_single_ne l k k' v h

theorem assocGet_assocRemove_self {α : Type} (l : List (Nat × α)) (k : Nat) :
    assocGet (assocRemove l k) k = none := by
  induction l with
  | nil => rfl
  | cons p l ih =>
    by_cases hp : p.1 = k
    · simpa [assocRemove, hp] using ih
    · simpa [assocRemove, hp, assocGet_cons] using ih

theorem assocGet_assocRemove_ne {α : Type} (l : List (Nat × α)) (k k' : Nat)
    (h : k' ≠ k) :
    assocGet (assocRemove l k) k' = assocGet l k' := by
  induction l with
  | nil => rfl
  | cons p l ih =>
    simp only [assocRemove, List.filter_cons] at ih ⊢
    by_cases hp : p.1 = k
    · have hpk' : ¬ p.1 = k' := by
        rw [hp]
        exact Ne.symm h
      simp [hp, hpk', assocGet_cons, ih, Ne.symm h, h]
    · by_cases hp' : p.1 = k'
      · simp [hp, hp', assocGet_cons, h]
      · simp [hp, hp', assocGet_cons, ih]

theorem mem_of_assocGet_eq_some {α : Type} {l : List (Nat × α)} {k : Nat} {v : α}
    (h : assocGet l k = some v) : (k, v) ∈ l := by
  induction l with
  | nil => simp [assocGet] at h
  | cons p l ih =>
    rw [assocGet_cons] at h
    by_cases hp : p.1 = k
    · have hv : p.2 = v := by
        simpa [hp] using h
      have hpkv : p = (k, v) := by
        cases p
        simp_all
      rw [← hpkv]
      exact List.mem_cons_self _ _
    · exact List.mem_cons_of_mem _ (ih (by simpa [hp] using h))

theorem mem_assocSet {α : Type} {l : List (Nat × α)} {k : Nat} {v : α} {q : Nat × α}
    (h : q ∈ assocSet l k v) : q ∈ l ∨ q = (k, v) := by
  unfold assocSet at h
  by_cases hany : l.any (fun p => p.1 == k) = true
  · rw [if_pos hany] at h
    rcases List.mem_map.mp h with ⟨p, hp, hq⟩
    by_cases hk : p.1 = k
    · right
      rw [← hq]
      simp [hk]
    · left
      rw [← hq]
      simpa [hk] using hp
  · rw [if_neg hany] at h
    rcases List.mem_append.mp h with h | h
    · exact Or.inl h
    · right
      simpa using h

theorem create_result (s : RepoState) (t c o : String) (now : Nat) :
    InMemoryNoteRepository.create s t c o now =
      (s.next_addr,
       { heap := assocSet s.heap s.next_addr
           { id := s.next_id, title := t, content := c, owner_id := o,
             created_at := now, updated_at := now },
         notes := assocSet s.notes s.next_id s.next_addr,
         next_id := s.next_id + 1,
         next_addr := s.next_addr + 1 }) := rfl

theorem update_eq_of_found (s : RepoState) (i a : Nat) (n : Note)
    (t c : Option String) (now : Nat)
    (hn : InMemoryNoteRepository.get s i = some a) (hd : deref s a = some n) :
    InMemoryNoteRepository.update s i t c now =
      (some a,
       { s with
           heap := assocSet s.heap a
             { id := n.id,
               title := t.getD n.title,
               content := c.getD n.content,
               owner_id := n.owner_id,
               created_at := n.created_at,
               updated_at := now } }) := by
  cases t <;> cases c <;> simp [InMemoryNoteRepository.update, hn, hd]

theorem delete_eq_of_found (s : RepoState) (i a : Nat)
    (hn : InMemoryNoteRepository.get s i = some a) :
    InMemoryNoteRepository.delete s i =
      (true, { s with notes := assocRemove s.notes i }) := by
  simp [InMemoryNoteRepository.delete, hn]

theorem delete_eq_of_missing (s : RepoState) (i : Nat)
    (h : InMemoryNoteRepository.get s i = none) :
    InMemoryNoteRepository.delete s i = (false, s) := by
  simp [InMemoryNoteRepository.delete, h]

theorem update_next_id (s : RepoState) (i : Nat) (t c : Option String) (now : Nat) :
    (InMemoryNoteRepository.update s i t c now).2.next_id = s.next_id := by
  cases hg : InMemoryNoteRepository.get s i with
  | none => simp [InMemoryNoteRepository.update, hg]
  | some a =>
    cases hd : deref s a with
    | none => simp [InMemoryNoteRepository.update, hg, hd]
    | some n => simp [InMemoryNoteRepository.update, hg, hd]

theorem delete_next_id (s : RepoState) (i : Nat) :
    (InMemoryNoteRepository.delete s i).2.next_id = s.next_id := by
  cases hg : InMemoryNoteRepository.get s i with
  | none => simp [InMemoryNoteRepository.delete, hg]
  | some a => simp [InMemoryNoteRepository.delete, hg]

theorem delete_heap (s : RepoState) (i : Nat) :
    (InMemoryNoteRepository.delete s i).2.heap = s.heap := by
  cases hg : InMemoryNoteRepository.get s i with
  | none => simp [InMemoryNoteRepository.delete, hg]
  | some a => simp [InMemoryNoteRepository.delete, hg]

/-- Claim C10: identity resolution maps a missing `X-User-Id` header and an
empty-string header value to `"anonymous"` (Python's `or` treats the empty
string as falsy), and returns any non-empty header value exactly;
`require_auth` passes the resolved identity through unchanged. -/
theorem C10_empty_header_resolves_to_anonymous (v : String) (h : v ≠ "") :
    get_current_user none = "anonymous" ∧
    get_current_user (some "") = "anonymous" ∧
    get_current_user (some v) = v ∧
    require_auth (get_current_user (some v)) = v := by
  refine ⟨rfl, rfl, ?_, ?_⟩ <;> simp [get_current_user, require_auth, h]

theorem C10_empty_header_resolves_to_anonymous_witness :
    get_current_user none = "anonymous" ∧
    get_current_user (some "") = "anonymous" ∧
    get_current_user (some "alice") = "alice" ∧
    require_auth (get_current_user (some "alice")) = "alice" :=
  C10_empty_header_resolves_to_anonymous "alice" (by decide)

/-- Claim C8: `create` always succeeds and returns a record with exactly the
given title, content and owner, fresh id `next_id`, and
`created_at = updated_at = now`; `get` called with that record's id, with no
intervening mutation, returns the very same object, hence a note equal in all
fields to the record `create` returned. -/
theorem C8_get_after_create_equals_created
    (s : RepoState) (title content owner_id : String) (now : Nat) :
    ∃ n : Note,
      deref (InMemoryNoteRepository.create s title content owner_id now).2
          (InMemoryNoteRepository.create s title content owner_id now).1 = some n ∧
      n.id = s.next_id ∧ n.title = title ∧ n.content = content ∧
      n.owner_id = owner_id ∧ n.created_at = now ∧ n.updated_at = now ∧
      InMemoryNoteRepository.get
          (InMemoryNoteRepository.create s title content owner_id now).2 n.id =
        some (InMemoryNoteRepository.create s title content owner_id now).1 := by
  refine ⟨{ id := s.next_id, title := title, content := content,
            owner_id := owner_id, created_at := now, updated_at := now },
          ?_, rfl, rfl, rfl, rfl, rfl, rfl, ?_⟩
  · show assocGet (InMemoryNoteRepository.create s title content owner_id now).2.heap
      (InMemoryNoteRepository.create s title content owner_id now).1 = _
    rw [create_result]
    exact assocGet_assocSet_self _ _ _
  · show assocGet (InMemoryNoteRepository.create s title content owner_id now).2.notes
      s.next_id = _
    rw [create_result]
    exact assocGet_assocSet_self _ _ _

/-- Claim C4: for an identifier with no entry in the repository (including
previously deleted ones), `get` returns absence, `update` returns absence,
`delete` returns `false`, and each call leaves the whole repository state —
stored notes and the id counter — exactly as it was. -/
theorem C4_missing_id_absence_and_state_unchanged
    (s : RepoState) (i : Nat) (t c : Option String) (now : Nat)
    (h : assocGet s.notes i = none) :
    InMemoryNoteRepository.get s i = none ∧
    InMemoryNoteRepository.update s i t c now = (none, s) ∧
    InMemoryNoteRepository.delete s i = (false, s) := by
  refine ⟨h, ?_, ?_⟩
  · simp [InMemoryNoteRepository.update, InMemoryNoteRepository.get, h]
  · simp [InMemoryNoteRepository.delete, InMemoryNoteRepository.get, h]

theorem C4_missing_id_witness :
    InMemoryNoteRepository.get sDeleted 1 = none ∧
    InMemoryNoteRepository.update sDeleted 1 (some "T") none 9 = (none, sDeleted) ∧
    InMemoryNoteRepository.delete sDeleted 1 = (false, sDeleted) :=
  C4_missing_id_absence_and_state_unchanged sDeleted 1 (some "T") none 9 (by decide)

/-- Claim C7: deleting a present note returns `true`, a subsequent `get` of
that id returns absence, and a second `delete` of the same id returns `false`
without failing and without changing the state further. -/
theorem C7_delete_then_get_absent_second_delete_false
    (s : RepoState) (i a : Nat)
    (h : assocGet s.notes i = some a) :
    (InMemoryNoteRepository.delete s i).1 = true ∧
    InMemoryNoteRepository.get (InMemoryNoteRepository.delete s i).2 i = none ∧
    InMemoryNoteRepository.delete (InMemoryNoteRepository.delete s i).2 i =
      (false, (InMemoryNoteRepository.delete s i).2) := by
  have hdel := delete_eq_of_found s i a h
  have hget : InMemoryNoteRepository.get
      (InMemoryNoteRepository.delete s i).2 i = none := by
    rw [hdel]
    exact assocGet_assocRemove_self _ _
  exact ⟨by rw [hdel], hget, delete_eq_of_missing _ _ hget⟩

theorem C7_delete_witness :
    (InMemoryNoteRepository.delete sAlice 1).1 = true ∧
    InMemoryNoteRepository.get (InMemoryNoteRepository.delete sAlice 1).2 1 = none ∧
    InMemoryNoteRepository.delete (InMemoryNoteRepository.delete sAlice 1).2 1 =
      (false, (InMemoryNoteRepository.delete sAlice 1).2) :=
  C7_delete_then_get_absent_second_delete_false sAlice 1 0 (by decide)

/-- Claim C5: on a present note, an `update` supplying neither title nor
content succeeds — it returns the note's reference, not absence — and leaves
title and content (and id, owner, `created_at`) unchanged, only refreshing
`updated_at`; the rejection of field-less payloads lives in the handler,
which answers 400 before any repository call, leaving the state untouched. -/
theorem C5_fieldless_update_succeeds_as_noop
    (s : RepoState) (i a : Nat) (n : Note) (now : Nat)
    (hn : InMemoryNoteRepository.get s i = some a) (hh : deref s a = some n) :
    (InMemoryNoteRepository.update s i none none now).1 = some a ∧
    deref (InMemoryNoteRepository.update s i none none now).2 a =
      some { n with updated_at := now } ∧
    update_note s i none none now = (.badRequest, s) := by
  have hupd := update_eq_of_found s i a n none none now hn hh
  refine ⟨by rw [hupd], ?_, ?_⟩
  · show assocGet (InMemoryNoteRepository.update s i none none now).2.heap a = _
    rw [hupd]
    exact assocGet_assocSet_self _ _ _
  · simp [update_note]

theorem C5_fieldless_update_witness :
    (InMemoryNoteRepository.update sAlice 1 none none 9).1 = some 0 ∧
    deref (InMemoryNoteRepository.update sAlice 1 none none 9).2 0 =
      some { id := 1, title := "Shopping", content := "Milk", owner_id := "alice",
             created_at := 5, updated_at := 9 } ∧
    update_note sAlice 1 none none 9 = (.badRequest, sAlice) :=
  C5_fieldless_update_succeeds_as_noop sAlice 1 0
    { id := 1, title := "Shopping", content := "Milk", owner_id := "alice",
      created_at := 5, updated_at := 5 } 9 (by decide) (by decide)

/-- Claim C3: a title-only `update` on a present note leaves content, id,
owner and `created_at` unchanged and sets `updated_at` to the clock reading,
which is at least the prior `updated_at` whenever the clock has not gone
backwards; symmetrically, a content-only update leaves the title unchanged. -/
theorem C3_partial_update_preserves_untouched_fields
    (s : RepoState) (i a : Nat) (n : Note) (T C : String) (now : Nat)
    (hn : InMemoryNoteRepository.get s i = some a) (hh : deref s a = some n)
    (hclock : n.updated_at ≤ now) :
    (InMemoryNoteRepository.update s i (some T) none now).1 = some a ∧
    deref (InMemoryNoteRepository.update s i (some T) none now).2 a =
      some { n with title := T, updated_at := now } ∧
    n.updated_at ≤ ({ n with title := T, updated_at := now } : Note).updated_at ∧
    (InMemoryNoteRepository.update s i none (some C) now).1 = some a ∧
    deref (InMemoryNoteRepository.update s i none (some C) now).2 a =
      some { n with content := C, updated_at := now } ∧
    n.updated_at ≤ ({ n with content := C, updated_at := now } : Note).updated_at := by
  have ht := update_eq_of_found s i a n (some T) none now hn hh
  have hc := update_eq_of_found s i a n none (some C) now hn hh
  refine ⟨by rw [ht], ?_, hclock, by rw [hc], ?_, hclock⟩
  · show assocGet (InMemoryNoteRepository.update s i (some T) none now).2.heap a = _
    rw [ht]
    exact assocGet_assocSet_self _ _ _
  · show assocGet (InMemoryNoteRepository.update s i none (some C) now).2.heap a = _
    rw [hc]
    exact assocGet_assocSet_self _ _ _

theorem C3_partial_update_witness :
    (InMemoryNoteRepository.update sAlice 1 (some "Groceries") none 9).1 = some 0 ∧
    deref (InMemoryNoteRepository.update sAlice 1 (some "Groceries") none 9).2 0 =
      some { id := 1, title := "Groceries", content := "Milk", owner_id := "alice",
             created_at := 5, updated_at := 9 } ∧
    ({ id := 1, title := "Shopping", content := "Milk", owner_id := "alice",
       created_at := 5, updated_at := 5 } : Note).updated_at ≤
      ({ id := 1, title := "Groceries", content := "Milk", owner_id := "alice",
         created_at := 5, updated_at := 9 } : Note).updated_at ∧
    (InMemoryNoteRepository.update sAlice 1 none (some "Milk, Eggs") 9).1 = some 0 ∧
    deref (InMemoryNoteRepository.update sAlice 1 none (some "Milk, Eggs") 9).2 0 =
      some { id := 1, title := "Shopping", content := "Milk, Eggs", owner_id := "alice",
             created_at := 5, updated_at := 9 } ∧
    ({ id := 1, title := "Shopping", content := "Milk", owner_id := "alice",
       created_at := 5, updated_at := 5 } : Note).updated_at ≤
      ({ id := 1, title := "Shopping", content := "Milk, Eggs", owner_id := "alice",
         created_at := 5, updated_at := 9 } : Note).updated_at :=
  C3_partial_update_preserves_untouched_fields sAlice 1 0
    { id := 1, title := "Shopping", content := "Milk", owner_id := "alice",
      created_at := 5, updated_at := 5 } "Groceries" "Milk, Eggs" 9
    (by decide) (by decide) (by decide)

/-- Claim C2 is false on the code: repository reads hand out the stored
object itself, not an independent copy.  Concretely, after creating one note
titled "Shopping", `get 1` returns the stored object's reference, and a
caller-side `note.title = "hacked"` through that reference changes what the
repository itself subsequently stores and serves: the stored title becomes
"hacked" and is no longer "Shopping". -/
theorem C2_counterexample_mutation_through_returned_reference :
    InMemoryNoteRepository.get sAlice 1 = some 0 ∧
    (deref sAlice 0).map Note.title = some "Shopping" ∧
    InMemoryNoteRepository.get (setTitleAt sAlice 0 "hacked") 1 = some 0 ∧
    (deref (setTitleAt sAlice 0 "hacked") 0).map Note.title = some "hacked" ∧
    ¬ (deref (setTitleAt sAlice 0 "hacked") 0).map Note.title = some "Shopping" := by
  decide

theorem deref_setTitleAt_self (s : RepoState) (a : Nat) (t : String) :
    deref (setTitleAt s a t) a
      = (deref s a).map (fun n => { n with title := t }) := by
  simp only [deref, setTitleAt]
  generalize s.heap = l
  induction l with
  | nil => rfl
  | cons p l ih =>
    simp only [beq_iff_eq] at ih
    by_cases h : p.1 = a
    · simp [assocGet_cons, h]
    · simp [assocGet_cons, h, ih]

/-- Claim C2 (amended): repository reads return references into storage, not
independent copies — `get` returns the stored object itself, mutating a
returned record through that reference mutates the repository's stored state
(the repository subsequently serves the mutated note), and `list_all` returns
a fresh list container whose elements are the stored references. -/
theorem C2_amended_reads_return_references_into_storage
    (s : RepoState) (i a : Nat) (n : Note) (t : String)
    (hn : InMemoryNoteRepository.get s i = some a) (hh : deref s a = some n) :
    InMemoryNoteRepository.get s i = some a ∧
    deref (setTitleAt s a t) a = some { n with title := t } ∧
    InMemoryNoteRepository.get (setTitleAt s a t) i = some a ∧
    InMemoryNoteRepository.list_all s none = s.notes.map Prod.snd := by
  refine ⟨hn, ?_, hn, rfl⟩
  rw [deref_setTitleAt_self, hh]
  rfl

theorem C2_amended_witness :
    InMemoryNoteRepository.get sAlice 1 = some 0 ∧
    deref (setTitleAt sAlice 0 "hacked") 0 =
      some { id := 1, title := "hacked", content := "Milk", owner_id := "alice",
             created_at := 5, updated_at := 5 } ∧
    InMemoryNoteRepository.get (setTitleAt sAlice 0 "hacked") 1 = some 0 ∧
    InMemoryNoteRepository.list_all sAlice none = sAlice.notes.map Prod.snd :=
  C2_amended_reads_return_references_into_storage sAlice 1 0
    { id := 1, title := "Shopping", content := "Milk", owner_id := "alice",
      created_at := 5, updated_at := 5 } "hacked" (by decide) (by decide)

/-- Claim C9: `list_all` with no owner returns all stored notes in dict
order; `list_all owner` returns exactly the stored notes whose `owner_id`
equals the given value — membership is equivalent to being stored with a
matching owner, and the result's length equals the number of stored entries
with a matching owner.  Being a total function, it never fails. -/
theorem C9_list_all_filters_exactly_by_owner (s : RepoState) (o : String) :
    InMemoryNoteRepository.list_all s none = s.notes.map Prod.snd ∧
    (∀ a : Nat, a ∈ InMemoryNoteRepository.list_all s (some o) ↔
        (a ∈ s.notes.map Prod.snd ∧ ∃ n, deref s a = some n ∧ n.owner_id = o)) ∧
    (InMemoryNoteRepository.list_all s (some o)).length =
      s.notes.countP (fun p =>
        match deref s p.2 with
        | some n => n.owner_id == o
        | none => false) := by
  refine ⟨rfl, ?_, ?_⟩
  · intro a
    constructor
    · intro h
      rcases List.mem_filter.mp h with ⟨hmem, hpred⟩
      refine ⟨hmem, ?_⟩
      cases hd : deref s a with
      | none =>
        rw [hd] at hpred
        simp at hpred
      | some n =>
        rw [hd] at hpred
        exact ⟨n, rfl, by simpa using hpred⟩
    · rintro ⟨hmem, n, hd, ho⟩
      refine List.mem_filter.mpr ⟨hmem, ?_⟩
      rw [hd]
      simpa using ho
  · show ((s.notes.map Prod.snd).filter _).length = _
    rw [← List.countP_eq_length_filter, List.countP_map]
    rfl

theorem createdIds_cons_create (s : RepoState) (t c o : String) (now : Nat)
    (ops : List Op) :
    createdIds s (Op.create t c o now :: ops) =
      s.next_id :: createdIds (InMemoryNoteRepository.create s t c o now).2 ops := by
  have hderef : deref (InMemoryNoteRepository.create s t c o now).2
      (InMemoryNoteRepository.create s t c o now).1 =
      some { id := s.next_id, title := t, content := c, owner_id := o,
             created_at := now, updated_at := now } := by
    rw [create_result]
    exact assocGet_assocSet_self _ _ _
  simp [createdIds, hderef]

theorem createdIds_cons_update (s : RepoState) (i : Nat) (t c : Option String)
    (now : Nat) (ops : List Op) :
    createdIds s (Op.update i t c now :: ops) =
      createdIds (InMemoryNoteRepository.update s i t c now).2 ops := by
  simp [createdIds, Op.step]

theorem createdIds_cons_delete (s : RepoState) (i : Nat) (ops : List Op) :
    createdIds s (Op.delete i :: ops) =
      createdIds (InMemoryNoteRepository.delete s i).2 ops := by
  simp [createdIds, Op.step]

theorem createdIds_cons_get (s : RepoState) (i : Nat) (ops : List Op) :
    createdIds s (Op.get i :: ops) = createdIds s ops := by
  simp [createdIds, Op.step]

theorem createdIds_cons_list (s : RepoState) (o : Option String) (ops : List Op) :
    createdIds s (Op.list o :: ops) = createdIds s ops := by
  simp [createdIds, Op.step]

theorem createdIds_lower_bound (ops : List Op) :
    ∀ s : RepoState, ∀ j ∈ createdIds s ops, s.next_id ≤ j := by
  induction ops with
  | nil =>
    intro s j hj
    simp [createdIds] at hj
  | cons op ops ih =>
    intro s j hj
    cases op with
    | create t c o now =>
      rw [createdIds_cons_create] at hj
      rcases List.mem_cons.mp hj with h | h
      · omega
      · have h2 := ih _ j h
        have h3 : (InMemoryNoteRepository.create s t c o now).2.next_id =
            s.next_id + 1 := rfl
        omega
    | update i t c now =>
      rw [createdIds_cons_update] at hj
      have h2 := ih _ j hj
      rw [update_next_id] at h2
      exact h2
    | delete i =>
      rw [createdIds_cons_delete] at hj
      have h2 := ih _ j hj
      rw [delete_next_id] at h2
      exact h2
    | get i =>
      rw [createdIds_cons_get] at hj
      exact ih _ j hj
    | list o =>
      rw [createdIds_cons_list] at hj
      exact ih _ j hj

theorem createdIds_pairwise (ops : List Op) :
    ∀ s : RepoState, List.Pairwise (· < ·) (createdIds s ops) := by
  induction ops with
  | nil =>
    intro s
    simp [createdIds]
  | cons op ops ih =>
    intro s
    cases op with
    | create t c o now =>
      rw [createdIds_cons_create]
      refine List.pairwise_cons.mpr ⟨?_, ih _⟩
      intro j hj
      have h2 := createdIds_lower_bound ops _ j hj
      have h3 : (InMemoryNoteRepository.create s t c o now).2.next_id =
          s.next_id + 1 := rfl
      omega
    | update i t c now =>
      rw [createdIds_cons_update]
      exact ih _
    | delete i =>
      rw [createdIds_cons_delete]
      exact ih _
    | get i =>
      rw [createdIds_cons_get]
      exact ih _
    | list o =>
      rw [createdIds_cons_list]
      exact ih _

/-- Claim C1: along any sequence of repository calls on a single instance —
`create` calls arbitrarily interleaved with `update`, `delete` and read calls
— the identifiers returned by the `create` calls are strictly increasing in
call order and pairwise distinct, so no identifier (deleted or not) is ever
returned twice. -/
theorem C1_created_ids_strictly_increasing_never_reused
    (ops : List Op) (s : RepoState) :
    List.Pairwise (· < ·) (createdIds s ops) ∧ (createdIds s ops).Nodup :=
  ⟨createdIds_pairwise ops s,
   (createdIds_pairwise ops s).imp (fun h => Nat.ne_of_lt h)⟩

theorem HeapLE_of_le {s : RepoState} {c c' : Nat} (h : HeapLE s c) (hcc : c ≤ c') :
    HeapLE s c' :=
  fun p hp => ⟨(h p hp).1, Nat.le_trans (h p hp).2 hcc⟩

theorem HeapLE_create {s : RepoState} {cl : Nat} (t c o : String) (now : Nat)
    (h : HeapLE s cl) (hle : cl ≤ now) :
    HeapLE (InMemoryNoteRepository.create s t c o now).2 now := by
  intro p hp
  have hp' : p ∈ assocSet s.heap s.next_addr
      { id := s.next_id, title := t, content := c, owner_id := o,
        created_at := now, updated_at := now } := by
    rw [create_result] at hp
    exact hp
  rcases mem_assocSet hp' with hmem | heq
  · exact ⟨(h p hmem).1, Nat.le_trans (h p hmem).2 hle⟩
  · subst heq
    exact ⟨Nat.le_refl _, Nat.le_refl _⟩

theorem HeapLE_update {s : RepoState} {cl : Nat} (i : Nat) (t c : Option String)
    (now : Nat) (h : HeapLE s cl) (hle : cl ≤ now) :
    HeapLE (InMemoryNoteRepository.update s i t c now).2 now := by
  cases hg : InMemoryNoteRepository.get s i with
  | none =>
    have hs : (InMemoryNoteRepository.update s i t c now).2 = s := by
      simp [InMemoryNoteRepository.update, hg]
    rw [hs]
    exact HeapLE_of_le h hle
  | some a =>
    cases hd : deref s a with
    | none =>
      have hs : (InMemoryNoteRepository.update s i t c now).2 = s := by
        simp [InMemoryNoteRepository.update, hg, hd]
      rw [hs]
      exact HeapLE_of_le h hle
    | some n =>
      have hupd := update_eq_of_found s i a n t c now hg hd
      intro p hp
      rw [hupd] at hp
      have hp' : p ∈ assocSet s.heap a
          { id := n.id, title := t.getD n.title, content := c.getD n.content,
            owner_id := n.owner_id, created_at := n.created_at,
            updated_at := now } := hp
      rcases mem_assocSet hp' with hmem | heq
      · exact ⟨(h p hmem).1, Nat.le_trans (h p hmem).2 hle⟩
      · have hb := h _ (mem_of_assocGet_eq_some hd)
        subst heq
        exact ⟨Nat.le_trans hb.1 (Nat.le_trans hb.2 hle), Nat.le_refl _⟩

theorem HeapLE_delete {s : RepoState} {cl : Nat} (i : Nat) (h : HeapLE s cl) :
    HeapLE (InMemoryNoteRepository.delete s i).2 cl := by
  intro p hp
  rw [delete_heap] at hp
  exact h p hp

theorem run_HeapLE (ops : List Op) :
    ∀ (s : RepoState) (cl : Nat), HeapLE s cl → clockMono cl ops = true →
      ∃ c', HeapLE (run s ops) c' := by
  induction ops with
  | nil =>
    intro s cl h _
    exact ⟨cl, h⟩
  | cons op ops ih =>
    intro s cl h hm
    cases op with
    | create t c o now =>
      simp only [clockMono, Op.clock, Bool.and_eq_true, decide_eq_true_eq] at hm
      exact ih _ now (HeapLE_create t c o now h hm.1) hm.2
    | update i t c now =>
      simp only [clockMono, Op.clock, Bool.and_eq_true, decide_eq_true_eq] at hm
      exact ih _ now (HeapLE_update i t c now h hm.1) hm.2
    | delete i =>
      simp only [clockMono, Op.clock] at hm
      exact ih _ cl (HeapLE_delete i h) hm
    | get i =>
      simp only [clockMono, Op.clock] at hm
      exact ih _ cl h hm
    | list o =>
      simp only [clockMono, Op.clock] at hm
      exact ih _ cl h hm

/-- Claim C6: starting from a fresh repository, after any sequence of calls
whose wall-clock readings are non-decreasing, every note stored in the
repository has `updated_at ≥ created_at`. -/
theorem C6_updated_at_never_below_created_at
    (ops : List Op) (cl : Nat) (hm : clockMono cl ops = true)
    (i a : Nat) (n : Note)
    (hga : InMemoryNoteRepository.get (run emptyRepo ops) i = some a)
    (hdn : deref (run emptyRepo ops) a = some n) :
    n.created_at ≤ n.updated_at := by
  obtain ⟨c', hc'⟩ := run_HeapLE ops emptyRepo cl
    (by
      intro p hp
      simp [emptyRepo] at hp) hm
  have hmem : (a, n) ∈ (run emptyRepo ops).heap := mem_of_assocGet_eq_some hdn
  exact (hc' _ hmem).1

theorem C6_updated_at_witness :
    ({ id := 1, title := "T", content := "Milk", owner_id := "alice",
       created_at := 3, updated_at := 5 } : Note).created_at ≤
      ({ id := 1, title := "T", content := "Milk", owner_id := "alice",
         created_at := 3, updated_at := 5 } : Note).updated_at :=
  C6_updated_at_never_below_created_at
    [Op.create "Shopping" "Milk" "alice" 3, Op.update 1 (some "T") none 5] 0
    (by decide) 1 0
    { id := 1, title := "T", content := "Milk", owner_id := "alice",
      created_at := 3, updated_at := 5 }
    (by decide) (by decide)
